import Mathlib

/-!
# Verification of the aria harmonic-analysis pipeline

A shallow embedding of the analysis code of the `aria` repository
(`adisi_main.py` and `adisi_utils/get_chords_per_16th.py`) together with
theorems settling the behavioural claims about it.

Conventions of the embedding:
* Python `set[int]` becomes `Finset ℕ`; `dict` preserving insertion order
  becomes an association list; Python strings become Lean `String`.
* Absolute MIDI ticks and millisecond instants are modelled exactly:
  integers as `ℕ`/`ℤ` and the (mathematically exact) time arithmetic over `ℚ`.
* Optional return values become `Option`.
-/

namespace Aria

/-! ## Chord classifier (`adisi_utils/get_chords_per_16th.py`) -/

/-- The pitch-class name table `NOTES`: the twelve chromatic names from C,
with each sharp name spelled as its natural plus the sharp sign. -/
def NOTES : List String :=
  ["C", "C" ++ "#", "D", "D" ++ "#", "E", "F",
   "F" ++ "#", "G", "G" ++ "#", "A", "A" ++ "#", "B"]

/-- The interval dictionary produced by `_get_intervals`: pitch classes of the
named intervals above a candidate root. -/
structure Iv where
  m2 : ℕ
  M2 : ℕ
  m3 : ℕ
  M3 : ℕ
  p4 : ℕ
  d5 : ℕ
  p5 : ℕ
  a5 : ℕ
  d7 : ℕ
  m7 : ℕ
  M7 : ℕ
deriving Repr, DecidableEq

/-- `_get_intervals(root_pc)`. -/
def getIntervals (root_pc : ℕ) : Iv :=
  ⟨(root_pc + 1) % 12, (root_pc + 2) % 12, (root_pc + 3) % 12, (root_pc + 4) % 12,
   (root_pc + 5) % 12, (root_pc + 6) % 12, (root_pc + 7) % 12, (root_pc + 8) % 12,
   (root_pc + 9) % 12, (root_pc + 10) % 12, (root_pc + 11) % 12⟩

/-- `_check_sus_chord`. -/
def checkSusChord (root_pc : ℕ) (pc : Finset ℕ) (iv : Iv) : Option String :=
  if iv.M2 ∈ pc ∧ iv.p5 ∈ pc then
    some (NOTES.getD root_pc "" ++ "sus2" ++ (if iv.m7 ∈ pc then "7" else ""))
  else if iv.p4 ∈ pc ∧ iv.p5 ∈ pc then
    some (NOTES.getD root_pc "" ++ "sus4" ++ (if iv.m7 ∈ pc then "7" else ""))
  else none

/-- `_get_tensions`: tensions are collected in the fixed order b9, #11, b13. -/
def getTensions (root_pc : ℕ) (pc : Finset ℕ) (iv : Iv) (has_3rd : Bool) : List String :=
  (if iv.m2 ∈ pc then ["b9"] else []) ++
  (if iv.d5 ∈ pc ∧ has_3rd ∧ iv.p5 ∈ pc then ["#11"] else []) ++
  (if iv.a5 ∈ pc ∧ (iv.m7 ∈ pc ∨ iv.M7 ∈ pc) then ["b13"] else [])

/-- `_check_major_chord`. -/
def checkMajorChord (root_pc : ℕ) (pc : Finset ℕ) (iv : Iv) (tensions : List String) :
    Option String :=
  if iv.M3 ∈ pc ∧ iv.p5 ∈ pc then
    let base := NOTES.getD root_pc "" ++
      (if iv.M7 ∈ pc then "maj7" else if iv.m7 ∈ pc then "7" else "")
    some (if tensions ≠ [] then base ++ String.join tensions else base)
  else none

/-- `_check_minor_chord`. -/
def checkMinorChord (root_pc : ℕ) (pc : Finset ℕ) (iv : Iv) (tensions : List String) :
    Option String :=
  if iv.m3 ∈ pc ∧ iv.p5 ∈ pc then
    let base := NOTES.getD root_pc "" ++ "m" ++ (if iv.m7 ∈ pc then "7" else "")
    some (if tensions ≠ [] then base ++ String.join tensions else base)
  else none

/-- `_check_dim_chord`. -/
def checkDimChord (root_pc : ℕ) (pc : Finset ℕ) (iv : Iv) (tensions : List String) :
    Option String :=
  if iv.m3 ∈ pc ∧ iv.d5 ∈ pc then
    if iv.d7 ∈ pc then some (NOTES.getD root_pc "" ++ "dim7")
    else if iv.m7 ∈ pc then some (NOTES.getD root_pc "" ++ "m7b5")
    else some (NOTES.getD root_pc "" ++ "dim")
  else none

/-- `_check_aug_chord`. -/
def checkAugChord (root_pc : ℕ) (pc : Finset ℕ) (iv : Iv) (tensions : List String) :
    Option String :=
  if iv.M3 ∈ pc ∧ iv.a5 ∈ pc then some (NOTES.getD root_pc "" ++ "aug") else none

/-- `_find_chord_type`: sus patterns are tried first when no 3rd is present;
then major, minor, diminished, augmented in that order. -/
def findChordType (root_pc : ℕ) (pc : Finset ℕ) : Option String :=
  let iv := getIntervals root_pc
  let has_3rd : Bool := decide (iv.m3 ∈ pc ∨ iv.M3 ∈ pc)
  match (if has_3rd then none else checkSusChord root_pc pc iv) with
  | some s => some s
  | none =>
    let tensions := getTensions root_pc pc iv has_3rd
    (checkMajorChord root_pc pc iv tensions).orElse fun _ =>
    (checkMinorChord root_pc pc iv tensions).orElse fun _ =>
    (checkDimChord root_pc pc iv tensions).orElse fun _ =>
    checkAugChord root_pc pc iv tensions

/-- `_notes_to_chord`: `None` for an empty set or a set of more than 4 distinct
notes; otherwise the candidate roots are the distinct pitch classes in
ascending order, first match wins, slash notation when the bass pitch class
differs from the matched root, and the bare bass pitch-class name as the final
fallback. -/
def notesToChord (notes : Finset ℕ) : Option String :=
  if h : notes = ∅ ∨ 4 < notes.card then none
  else
    let pc := notes.image (fun n => n % 12)
    let bass_pc :=
      notes.min' (Finset.nonempty_iff_ne_empty.mpr fun he => h (Or.inl he)) % 12
    match (pc.sort (· ≤ ·)).findSome? (fun r =>
        (findChordType r pc).map (fun c =>
          if bass_pc ≠ r then c ++ "/" ++ NOTES.getD bass_pc "" else c)) with
    | some s => some s
    | none => some (NOTES.getD bass_pc "")

/-- How `get_chords_per_16th` renders one classifier result into the report
line (`c or 'rest'`): Python truthiness sends both `None` and the empty string
to `"rest"`. -/
def renderChord (c : Option String) : String :=
  match c with
  | none => "rest"
  | some s => if s = "" then "rest" else s

/-! ## Event stream builder and timeline sampler
(`adisi_main.py`, `_get_sounding_notes_per_16th`) -/

/-- The mido message types the analysis code distinguishes; `other` covers
every message kind it ignores (meta messages, control changes, ...). -/
inductive MsgType
  | noteOn
  | noteOff
  | other
deriving Repr, DecidableEq

/-- A mido track message: a delta time plus the fields the code reads. -/
structure MidoMsg where
  typ : MsgType
  time : ℕ
  note : ℕ
  velocity : ℕ
  channel : ℕ
deriving Repr, DecidableEq

/-- On/Off classification of a collected event. -/
inductive EvKind
  | on
  | off
deriving Repr, DecidableEq

/-- One collected `('on'/'off', abs_time, note)` triple. -/
structure Ev where
  kind : EvKind
  tick : ℕ
  note : ℕ
deriving Repr, DecidableEq

/-- Event classification (lines 30-33): a `note_on` with positive velocity is
an On; a `note_off`, or a `note_on` with velocity 0, is an Off; anything else
is ignored. -/
def classifyMsg (m : MidoMsg) : Option EvKind :=
  if m.typ = .noteOn ∧ 0 < m.velocity then some .on
  else if m.typ = .noteOff ∨ (m.typ = .noteOn ∧ m.velocity = 0) then some .off
  else none

/-- Delta-time accumulation over one track (lines 26-33), starting from
absolute time `t`. -/
def trackEventsFrom (t : ℕ) : List MidoMsg → List Ev
  | [] => []
  | m :: rest =>
    match classifyMsg m with
    | some k => ⟨k, t + m.time, m.note⟩ :: trackEventsFrom (t + m.time) rest
    | none => trackEventsFrom (t + m.time) rest

/-- All collected events of all tracks, in track order. -/
def allEvents (tracks : List (List MidoMsg)) : List Ev :=
  tracks.bind (trackEventsFrom 0)

/-- The secondary sort key of line 35: 0 for Off, 1 for On. -/
def evRank (e : Ev) : ℕ :=
  match e.kind with
  | .off => 0
  | .on => 1

/-- The sort order of line 35: Python compares the key tuples
`(absolute tick, 0 if off else 1)` lexicographically. -/
def evLe (a b : Ev) : Bool :=
  decide (a.tick < b.tick ∨ (a.tick = b.tick ∧ evRank a ≤ evRank b))

/-- `events.sort(key=...)`: Python `list.sort` is a stable merge sort. -/
def sortEvents (events : List Ev) : List Ev :=
  events.mergeSort evLe

/-- `max(t for _, t, _ in events) if events else 0` (line 38). -/
def lastTick (events : List Ev) : ℕ :=
  (events.map (fun e => e.tick)).foldr max 0

/-- Python 3 `round` on an exact rational value: round half to even. -/
def pyRound (x : ℚ) : ℤ :=
  if x - ⌊x⌋ < 1/2 then ⌊x⌋
  else if 1/2 < x - ⌊x⌋ then ⌊x⌋ + 1
  else if ⌊x⌋ % 2 = 0 then ⌊x⌋ else ⌊x⌋ + 1

/-- Python `int()` on an exact rational value: truncation toward zero. -/
def pyInt (x : ℚ) : ℤ :=
  if x < 0 then -⌊-x⌋ else ⌊x⌋

/-- One On/Off event applied to the running active set (lines 49-52):
`set.add` on On, `set.discard` on Off. -/
def applyEv (s : Finset ℕ) (e : Ev) : Finset ℕ :=
  match e.kind with
  | .on => insert e.note s
  | .off => s.erase e.note

/-- The inner scan of lines 46-52 over the sorted events, including the
`break` once an event lies strictly past the target tick. -/
def activeThrough (s : Finset ℕ) (target : ℤ) : List Ev → Finset ℕ
  | [] => s
  | e :: rest =>
    if target < (e.tick : ℤ) then s else activeThrough (applyEv s e) target rest

/-- `_get_sounding_notes_per_16th`, with the parsed file replaced by its track
list and `ticks_per_beat` value: returns the per-16th sorted sounding-note
lists and `total_16ths`. -/
def soundingNotesPer16th (tracks : List (List MidoMsg)) (ticks_per_beat : ℚ) :
    List (List ℕ) × ℕ :=
  let ticks_per_16th := ticks_per_beat / 4
  let events := sortEvents (allEvents tracks)
  let total_16ths := (pyRound ((lastTick events : ℚ) / ticks_per_16th)).toNat
  ((List.range total_16ths).map fun (i : ℕ) =>
      (activeThrough ∅ (pyInt ((i : ℚ) * ticks_per_16th)) events).sort (· ≤ ·),
   total_16ths)

/-! ## Cadence detector (`get_chord_events`, `is_perfect_cadence`,
`find_cadences`) -/

/-- One parsed timeline sample of `parse_harmonic_output`: a tick and its
harmonic-function label. -/
structure TimePoint where
  tick : ℤ
  function : String
deriving Repr, DecidableEq

/-- One compressed harmonic run of `get_chord_events`. -/
structure HEvent where
  function : String
  start_tick : ℤ
  duration : ℤ
deriving Repr, DecidableEq

/-- The loop of `get_chord_events` (lines 204-218): flush the current run each
time the label changes. -/
def gceLoop : List TimePoint → String → ℤ → List HEvent → String × ℤ × List HEvent
  | [], cf, st, evs => (cf, st, evs)
  | td :: rest, cf, st, evs =>
    if td.function ≠ cf then
      gceLoop rest td.function td.tick (evs ++ [⟨cf, st, td.tick - st⟩])
    else
      gceLoop rest cf st evs

/-- `get_chord_events`: run-length compression of the timeline; the final
run's duration is `final_tick - start_tick + 1`. -/
def getChordEvents (timeline : List TimePoint) : List HEvent :=
  match timeline with
  | [] => []
  | t0 :: rest =>
    let r := gceLoop (t0 :: rest) t0.function t0.tick []
    let final_tick := ((t0 :: rest).getLastD t0).tick
    r.2.2 ++ [⟨r.1, r.2.1, final_tick - r.2.1 + 1⟩]

/-- The dominant test of `is_perfect_cadence` (line 242): the label starts
with 'V' and the second character, if any, is not 'I'/'i'. -/
def isDominant (s : String) : Bool :=
  match s.toList with
  | [] => false
  | c :: rest =>
    c == 'V' && (match rest with
      | [] => true
      | c2 :: _ => !(c2 == 'I' || c2 == 'i'))

/-- The tonic test of `is_perfect_cadence` (lines 246-247): the label starts
with 'I' or 'i' and the second character, if any, is none of 'I','i','V','v'. -/
def isTonic (s : String) : Bool :=
  match s.toList with
  | [] => false
  | c :: rest =>
    (c == 'I' || c == 'i') && (match rest with
      | [] => true
      | c2 :: _ => !(c2 == 'I' || c2 == 'i' || c2 == 'V' || c2 == 'v'))

/-- `is_perfect_cadence`: dominant prev, tonic curr, curr starting on a beat
(tick divisible by 4), prev lasting at least 2 subdivisions. -/
def isPerfectCadence (prev curr : HEvent) : Bool :=
  isDominant prev.function && isTonic curr.function &&
    decide (curr.start_tick % 4 = 0) && decide (2 ≤ prev.duration)

/-- The classification loop of `find_cadences` (lines 273-278) over the
compressed run list: returns the (strong, regular) cadence tick lists.
(`find_cadences` itself is this loop composed with `parse_harmonic_output`
and `get_chord_events`.) -/
def findCadencesFromEvents (events : List HEvent) : List ℤ × List ℤ :=
  List.foldl
    (fun acc pc =>
      if isPerfectCadence pc.1 pc.2 then
        if 8 ≤ pc.2.duration then (acc.1 ++ [pc.2.start_tick], acc.2)
        else if 2 ≤ pc.2.duration then (acc.1, acc.2 ++ [pc.2.start_tick])
        else acc
      else acc)
    ([], []) (events.zip events.tail)

/-- Expansion of a compressed run list back into per-subdivision labels (the
round-trip claim's inverse of `get_chord_events`): each run contributes
`duration` copies of its label. -/
def expandEvents (events : List HEvent) : List String :=
  events.bind (fun e => List.replicate e.duration.toNat e.function)

/-! ## Harmonic-analysis driver (`save_harmonic_analysis`, MIDI path) -/

/-- Outcome of `save_harmonic_analysis` on the MIDI path: skipped because the
key is minor (returns `False`), rejected by the polyphony gate (returns
`False` before the output file is opened), aborted by the "Rest" branch
(report file deleted, returns `None`), or completed with the written data
lines. -/
inductive SaveResult
  | skippedMinor
  | rejectedPolyphony
  | abortedRest
  | completed (lines : List (ℕ × String × String))
deriving Repr, DecidableEq

/-- The per-tick write loop (lines 122-152) on the MIDI path: `chord_name`
starts as "Rest", is replaced by music21's `pitchedCommonName` when the
tick's note list is nonempty, and an actual "Rest" deletes the report and
aborts.  `name` and `func` model the external music21 naming calls
(`pitchedCommonName` and the roman-numeral `figure`). -/
def writeLoop (name func : List ℕ → String) :
    List (List ℕ) → List (ℕ × String × String) → ℕ →
      Option (List (ℕ × String × String))
  | [], acc, _ => some acc
  | ns :: rest, acc, tick =>
    let chord_name := if ns ≠ [] then name ns else "Rest"
    let f := if ns ≠ [] then func ns else "-"
    if chord_name = "Rest" then none
    else writeLoop name func rest (acc ++ [(tick, chord_name, f)]) (tick + 1)

/-- `save_harmonic_analysis` (MIDI path), with the parsed file replaced by the
detected key mode, the sampled sounding-note lists, and the external naming
functions. -/
def saveHarmonicAnalysis (minorKey : Bool) (soundingNotes : List (List ℕ))
    (name func : List ℕ → String) : SaveResult :=
  if minorKey then .skippedMinor
  else if soundingNotes.any (fun ns => ns.length < 3) then .rejectedPolyphony
  else
    match writeLoop name func soundingNotes [] 0 with
    | none => .abortedRest
    | some lines => .completed lines

/-! ## Window extractor (`cut_midi_at_16th`) -/

/-- Insertion-ordered dict update `active_notes[(channel, note)] = velocity`:
an existing key keeps its position, a new key is appended (Python dicts
preserve insertion order, which fixes the order of the synthesized Offs). -/
def dictSet (d : List ((ℕ × ℕ) × ℕ)) (k : ℕ × ℕ) (v : ℕ) : List ((ℕ × ℕ) × ℕ) :=
  if d.any (fun e => e.1 = k) then
    d.map (fun e => if e.1 = k then (k, v) else e)
  else d ++ [(k, v)]

/-- `if key in active_notes: del active_notes[key]`. -/
def dictDel (d : List ((ℕ × ℕ) × ℕ)) (k : ℕ × ℕ) : List ((ℕ × ℕ) × ℕ) :=
  d.filter (fun e => e.1 ≠ k)

/-- Active-note tracking for a message copied strictly before the cut
(lines 360-364). -/
def trackActive (active : List ((ℕ × ℕ) × ℕ)) (m : MidoMsg) :
    List ((ℕ × ℕ) × ℕ) :=
  if m.typ = .noteOn ∧ 0 < m.velocity then dictSet active (m.channel, m.note) m.velocity
  else if (m.typ = .noteOn ∧ m.velocity = 0) ∨ m.typ = .noteOff then
    dictDel active (m.channel, m.note)
  else active

/-- Active-note removal for a message kept exactly at the cut (lines 376-380):
only Off messages remove their key. -/
def boundaryActive (active : List ((ℕ × ℕ) × ℕ)) (m : MidoMsg) :
    List ((ℕ × ℕ) × ℕ) :=
  if (m.typ = .noteOn ∧ m.velocity = 0) ∨ m.typ = .noteOff then
    dictDel active (m.channel, m.note)
  else active

/-- The force-close loop of lines 386-393: one `note_off` (velocity 0) per
still-active (channel, pitch), the first carrying the residual delta, the
rest carrying delta 0. -/
def synthOffs (remaining_delta : ℕ) : List ((ℕ × ℕ) × ℕ) → List MidoMsg
  | [] => []
  | e :: rest =>
    ⟨.noteOff, remaining_delta, e.1.2, 0, e.1.1⟩ ::
      rest.map (fun e2 => ⟨.noteOff, 0, e2.1.2, 0, e2.1.1⟩)

/-- The per-track message loop of `cut_midi_at_16th` (lines 349-395): `t` is
the absolute time of the previous message, `active` the insertion-ordered
active-note dict.  The strict-boundary cases: strictly before the cut, copy
and track; exactly at the cut, drop an On and keep anything else; strictly
after the cut, force-close the active notes with `remaining_delta = cut - t`
and stop. -/
def cutTrackLoop (cut : ℕ) : ℕ → List ((ℕ × ℕ) × ℕ) → List MidoMsg → List MidoMsg
  | _, _, [] => []
  | t, active, m :: rest =>
    let t2 := t + m.time
    if t2 < cut then
      m :: cutTrackLoop cut t2 (trackActive active m) rest
    else if t2 = cut then
      if m.typ = .noteOn ∧ 0 < m.velocity then cutTrackLoop cut t2 active rest
      else m :: cutTrackLoop cut t2 (boundaryActive active m) rest
    else
      synthOffs (cut - t) active

/-- The synthesized `end_of_track` meta message (line 398), delta 0. -/
def endOfTrackMsg : MidoMsg := ⟨.other, 0, 0, 0, 0⟩

/-- One output track of `cut_midi_at_16th`. -/
def cutTrack (cut : ℕ) (track : List MidoMsg) : List MidoMsg :=
  cutTrackLoop cut 0 [] track ++ [endOfTrackMsg]

/-- `cut_midi_at_16th` on the track lists: the cut tick is
`int(cut_16th_index * ticks_per_beat / 4)` and every track is truncated. -/
def cutMidiAt16th (tracks : List (List MidoMsg)) (ticks_per_beat : ℚ)
    (cut_16th_index : ℕ) : List (List MidoMsg) :=
  tracks.map (cutTrack (pyInt ((cut_16th_index : ℚ) * (ticks_per_beat / 4))).toNat)

/-- Total elapsed delta time of a message list. -/
def trackElapsed (msgs : List MidoMsg) : ℕ :=
  (msgs.map (fun m => m.time)).sum

/-! ## Per-16th chord extraction (`_extract_chords`) -/

/-- One `note_msgs` entry after ariautils' `tick_to_ms` conversion: the pitch
plus the start/end instants in milliseconds. -/
structure NoteMsg where
  pitch : ℕ
  startMs : ℚ
  endMs : ℚ
deriving Repr, DecidableEq

/-- The notes sounding at instant `t` (the set comprehension of lines 95-97):
only pitches 21..108 with `start ≤ t < end` enter. -/
def sampleNotes (msgs : List NoteMsg) (t : ℚ) : Finset ℕ :=
  ((msgs.filter (fun m =>
      m.startMs ≤ t ∧ t < m.endMs ∧ 21 ≤ m.pitch ∧ m.pitch ≤ 108)).map
    (fun m => m.pitch)).toFinset

/-- `_extract_chords` with `tick_to_ms` already applied to the note messages
and the 16th-note step in milliseconds precomputed from the tempo
(`step_ms = (60000 / tempo) * 0.25`).  Note that `max_ms` ranges over all
note messages, with no pitch-range filter. -/
def extractChords (msgs : List NoteMsg) (step_ms : ℚ) : List (Option String) :=
  if msgs = [] then []
  else
    let max_ms := (msgs.map (fun m => m.endMs)).foldr max 0
    (List.range ((pyInt (max_ms / step_ms)).toNat + 1)).map fun (i : ℕ) =>
      notesToChord (sampleNotes msgs ((i : ℚ) * step_ms))

/-! ## Theorems -/

/-- C1 counterexample: the note set {0,1,2,3,4} has 5 distinct pitch classes,
yet `_notes_to_chord` returns `None` (rendered "rest" by the report writer),
not the bare bass pitch-class name "C". -/
theorem c1_counterexample :
    (({0, 1, 2, 3, 4} : Finset ℕ).image (fun n => n % 12)).card = 5 ∧
    notesToChord {0, 1, 2, 3, 4} = none ∧
    notesToChord {0, 1, 2, 3, 4} ≠ some "C" ∧
    renderChord (notesToChord {0, 1, 2, 3, 4}) = "rest" := by
  refine ⟨by decide, by decide, by decide, by decide⟩

/-- C1 (amended): a note set with more than 4 distinct pitch classes (which
forces more than 4 distinct notes, the size the guard actually tests) is
treated as unclassifiable, but the classifier returns `None`, which the
per-16th report writer renders as "rest" — not the bare bass pitch-class
name; a set with 0 members likewise yields "rest". -/
theorem c1_unclassifiable_amended (notes : Finset ℕ) :
    (4 < (notes.image (fun n => n % 12)).card →
      notesToChord notes = none ∧ renderChord (notesToChord notes) = "rest") ∧
    (notes = ∅ → renderChord (notesToChord notes) = "rest") := by
  constructor
  · intro h
    have hc : 4 < notes.card := lt_of_lt_of_le h Finset.card_image_le
    have hn : notesToChord notes = none := by
      unfold notesToChord
      rw [dif_pos (Or.inr hc)]
    exact ⟨hn, by rw [hn]; rfl⟩
  · intro h
    have hn : notesToChord notes = none := by
      unfold notesToChord
      rw [dif_pos (Or.inl h)]
    rw [hn]; rfl

/-- Witness for C1 (amended) at the concrete sets {0,1,2,3,4} and ∅. -/
theorem c1_unclassifiable_amended_witness :
    notesToChord ({0, 1, 2, 3, 4} : Finset ℕ) = none ∧
    renderChord (notesToChord (∅ : Finset ℕ)) = "rest" :=
  ⟨((c1_unclassifiable_amended {0, 1, 2, 3, 4}).1 (by decide)).1,
   (c1_unclassifiable_amended ∅).2 rfl⟩

/-- C3: for an adjacent dominant→tonic pair of runs whose tonic run starts on
a beat (start tick divisible by 4), a duration-2 dominant followed by a
duration-8 tonic yields a Strong cadence at the tonic's start tick, a tonic
duration in [2,8) (such as 7) yields a Regular cadence there, and a
duration-1 dominant yields no cadence at all. -/
theorem c3_cadence_rule_boundary (prev curr : HEvent)
    (hdom : isDominant prev.function = true)
    (hton : isTonic curr.function = true)
    (hbeat : curr.start_tick % 4 = 0) :
    (prev.duration = 2 → curr.duration = 8 →
      findCadencesFromEvents [prev, curr] = ([curr.start_tick], [])) ∧
    (prev.duration = 2 → 2 ≤ curr.duration → curr.duration < 8 →
      findCadencesFromEvents [prev, curr] = ([], [curr.start_tick])) ∧
    (prev.duration = 1 →
      findCadencesFromEvents [prev, curr] = ([], [])) := by
  refine ⟨?_, ?_, ?_⟩
  · intro hp hc
    simp [findCadencesFromEvents, isPerfectCadence, hdom, hton, hbeat, hp, hc]
    exact Int.dvd_of_emod_eq_zero hbeat
  · intro hp hc1 hc2
    simp [findCadencesFromEvents, isPerfectCadence, hdom, hton, hbeat, hp, hc1,
      not_le.mpr hc2]
    exact Int.dvd_of_emod_eq_zero hbeat
  · intro hp
    simp [findCadencesFromEvents, isPerfectCadence, hdom, hton, hbeat, hp]

/-- Witness for C3 at concrete dominant/tonic runs. -/
theorem c3_cadence_rule_boundary_witness :
    findCadencesFromEvents [⟨"V", 0, 2⟩, ⟨"I", 4, 8⟩] = ([4], []) ∧
    findCadencesFromEvents [⟨"V", 0, 2⟩, ⟨"I", 4, 7⟩] = ([], [4]) ∧
    findCadencesFromEvents [⟨"V", 0, 1⟩, ⟨"I", 4, 8⟩] = ([], []) :=
  ⟨(c3_cadence_rule_boundary ⟨"V", 0, 2⟩ ⟨"I", 4, 8⟩ (by decide) (by decide)
      (by decide)).1 rfl rfl,
   (c3_cadence_rule_boundary ⟨"V", 0, 2⟩ ⟨"I", 4, 7⟩ (by decide) (by decide)
      (by decide)).2.1 rfl (by decide) (by decide),
   (c3_cadence_rule_boundary ⟨"V", 0, 1⟩ ⟨"I", 4, 8⟩ (by decide) (by decide)
      (by decide)).2.2 rfl⟩

theorem expandEvents_append (a b : List HEvent) :
    expandEvents (a ++ b) = expandEvents a ++ expandEvents b := by
  simp [expandEvents]

theorem expandEvents_singleton (e : HEvent) :
    expandEvents [e] = List.replicate e.duration.toNat e.function := by
  simp [expandEvents]

theorem gceLoop_cons (td : TimePoint) (rest : List TimePoint) (cf : String)
    (st : ℤ) (evs : List HEvent) :
    gceLoop (td :: rest) cf st evs =
      if td.function ≠ cf then
        gceLoop rest td.function td.tick (evs ++ [⟨cf, st, td.tick - st⟩])
      else gceLoop rest cf st evs := rfl

theorem gceLoop_nil (cf : String) (st : ℤ) (evs : List HEvent) :
    gceLoop [] cf st evs = (cf, st, evs) := rfl

/-- Invariant of the compression loop: running `gceLoop` on a consecutive-tick
suffix (ticks `base, base+1, ...`) and flushing the final run expands to the
already-flushed runs, the pending run's `base - st` labels, and the suffix's
labels. -/
theorem gceLoop_expand (l : List TimePoint) (cf : String) (st base : ℤ)
    (evs : List HEvent) (d : TimePoint) (hne : l ≠ [])
    (hticks : ∀ i (h : i < l.length), (l.get ⟨i, h⟩).tick = base + i)
    (hst : st ≤ base) :
    expandEvents ((gceLoop l cf st evs).2.2 ++
      [⟨(gceLoop l cf st evs).1, (gceLoop l cf st evs).2.1,
        (l.getLastD d).tick - (gceLoop l cf st evs).2.1 + 1⟩]) =
    expandEvents evs ++ List.replicate (base - st).toNat cf ++
      l.map (fun td => td.function) := by
  induction l generalizing cf st base evs d with
  | nil => exact absurd rfl hne
  | cons t l2 ih =>
    have ht0 : t.tick = base := by simpa using hticks 0 (by simp)
    cases l2 with
    | nil =>
      by_cases hf : t.function ≠ cf
      · rw [gceLoop_cons, if_pos hf, gceLoop_nil]
        simp only [List.getLastD_cons, List.getLastD_nil]
        rw [expandEvents_append, expandEvents_append, expandEvents_singleton,
          expandEvents_singleton]
        simp only [ht0]
        rw [show (base - base + 1).toNat = 1 by omega]
        simp
      · push_neg at hf
        rw [gceLoop_cons, if_neg (by simpa using hf), gceLoop_nil]
        simp only [List.getLastD_cons, List.getLastD_nil]
        rw [expandEvents_append, expandEvents_singleton]
        simp only [ht0, hf]
        rw [show (base - st + 1).toNat = (base - st).toNat + 1 by omega,
          List.replicate_succ']
        simp [hf]
    | cons t2 l3 =>
      have hticks2 : ∀ i (h : i < (t2 :: l3).length),
          ((t2 :: l3).get ⟨i, h⟩).tick = (base + 1) + i := by
        intro i h
        have h2 := hticks (i + 1) (by simpa using Nat.succ_lt_succ h)
        simp only [List.get] at h2 ⊢
        push_cast at h2 ⊢
        omega
      by_cases hf : t.function ≠ cf
      · rw [gceLoop_cons, if_pos hf, List.getLastD_cons]
        have key := ih t.function t.tick (base + 1)
          (evs ++ [⟨cf, st, t.tick - st⟩]) t (by simp) hticks2 (by omega)
        rw [key]
        rw [expandEvents_append, expandEvents_singleton]
        simp only [ht0]
        rw [show (base + 1 - base).toNat = 1 by omega]
        simp
      · push_neg at hf
        rw [gceLoop_cons, if_neg (by simpa using hf), List.getLastD_cons]
        have key := ih cf st (base + 1) evs t (by simp) hticks2 (by omega)
        rw [key]
        rw [show (base + 1 - st).toNat = (base - st).toNat + 1 by omega,
          List.replicate_succ']
        simp [hf]

/-- C6: for every nonempty label timeline sampled at consecutive subdivision
ticks, compressing it with `get_chord_events` (whose final event's duration is
`last_tick - start_tick + 1`) and then expanding every event into
duration-many copies of its label reproduces the original per-subdivision
label timeline exactly. -/
theorem c6_run_length_round_trip (timeline : List TimePoint)
    (hne : timeline ≠ [])
    (hconsec : ∀ i (h : i < timeline.length),
      (timeline.get ⟨i, h⟩).tick = (timeline.headD ⟨0, ""⟩).tick + i) :
    expandEvents (getChordEvents timeline) =
      timeline.map (fun td => td.function) := by
  cases timeline with
  | nil => exact absurd rfl hne
  | cons t0 rest =>
    have hticks : ∀ i (h : i < (t0 :: rest).length),
        ((t0 :: rest).get ⟨i, h⟩).tick = t0.tick + i := by
      intro i h
      simpa using hconsec i h
    have key := gceLoop_expand (t0 :: rest) t0.function t0.tick t0.tick [] t0
      (by simp) hticks le_rfl
    have hgc : getChordEvents (t0 :: rest) =
        (gceLoop (t0 :: rest) t0.function t0.tick []).2.2 ++
          [⟨(gceLoop (t0 :: rest) t0.function t0.tick []).1,
            (gceLoop (t0 :: rest) t0.function t0.tick []).2.1,
            ((t0 :: rest).getLastD t0).tick -
              (gceLoop (t0 :: rest) t0.function t0.tick []).2.1 + 1⟩] := rfl
    rw [hgc, key]
    simp [expandEvents]

/-- Witness for C6 at a concrete consecutive-tick timeline. -/
theorem c6_run_length_round_trip_witness :
    expandEvents (getChordEvents [⟨0, "I"⟩, ⟨1, "I"⟩, ⟨2, "V"⟩, ⟨3, "V"⟩, ⟨4, "I"⟩]) =
      ["I", "I", "V", "V", "I"] := by
  have h := c6_run_length_round_trip [⟨0, "I"⟩, ⟨1, "I"⟩, ⟨2, "V"⟩, ⟨3, "V"⟩, ⟨4, "I"⟩]
    (by simp) (by decide)
  simpa using h

theorem evLe_trans (a b c : Ev) (h1 : evLe a b = true) (h2 : evLe b c = true) :
    evLe a c = true := by
  simp only [evLe, decide_eq_true_eq] at h1 h2 ⊢
  omega

theorem evLe_total (a b : Ev) : (evLe a b || evLe b a) = true := by
  simp only [evLe, Bool.or_eq_true, decide_eq_true_eq]
  omega

theorem evRank_eq_one (e : Ev) (h : e.kind = .on) : evRank e = 1 := by
  simp [evRank, h]

theorem evRank_eq_zero (e : Ev) (h : e.kind = .off) : evRank e = 0 := by
  simp [evRank, h]

/-- C5: in the EventStream Builder's merged, sorted output, for any two events
at equal absolute tick an Off never sorts after an On; and a `note_on` message
with velocity 0 is classified as an Off event, never as an On event. -/
theorem c5_tie_break_invariant (tracks : List (List MidoMsg)) (m : MidoMsg) :
    (∀ i j : Fin (sortEvents (allEvents tracks)).length, i < j →
      ((sortEvents (allEvents tracks)).get i).tick =
        ((sortEvents (allEvents tracks)).get j).tick →
      ¬(((sortEvents (allEvents tracks)).get i).kind = .on ∧
        ((sortEvents (allEvents tracks)).get j).kind = .off)) ∧
    (m.typ = .noteOn → m.velocity = 0 → classifyMsg m = some .off) := by
  constructor
  · intro i j hij htick hk
    obtain ⟨hi, hj⟩ := hk
    have hp : List.Pairwise (fun a b => evLe a b = true)
        (sortEvents (allEvents tracks)) :=
      List.sorted_mergeSort evLe_trans evLe_total (allEvents tracks)
    have hle := List.pairwise_iff_get.mp hp i j hij
    simp only [evLe, decide_eq_true_eq] at hle
    have hri := evRank_eq_one _ hi
    have hrj := evRank_eq_zero _ hj
    omega
  · intro h1 h2
    simp [classifyMsg, h1, h2]

unseal List.merge List.mergeSort in
/-- Witness for C5: a concrete two-track stream with an On and an Off at the
same absolute tick, plus a velocity-0 `note_on`. -/
theorem c5_tie_break_invariant_witness :
    ¬(((sortEvents (allEvents [[⟨.noteOn, 5, 60, 64, 0⟩], [⟨.noteOff, 5, 61, 0, 0⟩]])).get
        ⟨0, by decide⟩).kind = .on ∧
      ((sortEvents (allEvents [[⟨.noteOn, 5, 60, 64, 0⟩], [⟨.noteOff, 5, 61, 0, 0⟩]])).get
        ⟨1, by decide⟩).kind = .off) ∧
    classifyMsg ⟨.noteOn, 0, 60, 0, 0⟩ = some EvKind.off :=
  ⟨(c5_tie_break_invariant [[⟨.noteOn, 5, 60, 64, 0⟩], [⟨.noteOff, 5, 61, 0, 0⟩]]
      ⟨.noteOn, 0, 60, 0, 0⟩).1 ⟨0, by decide⟩ ⟨1, by decide⟩ (by decide) (by decide),
   (c5_tie_break_invariant [] ⟨.noteOn, 0, 60, 0, 0⟩).2 rfl rfl⟩

/-- C7: in the Timeline Sampler a duplicate On for an already-sounding pitch
leaves the running active set unchanged, an Off for a pitch not currently
active is a no-op, and the number of sampled subdivisions equals
`round(last_event_tick / subdivision_length)`. -/
theorem c7_sampler_edge_cases (s : Finset ℕ) (e : Ev)
    (tracks : List (List MidoMsg)) (tpb : ℚ) :
    (e.kind = .on → e.note ∈ s → applyEv s e = s) ∧
    (e.kind = .off → e.note ∉ s → applyEv s e = s) ∧
    (soundingNotesPer16th tracks tpb).1.length =
      (pyRound ((lastTick (sortEvents (allEvents tracks)) : ℚ) / (tpb / 4))).toNat := by
  refine ⟨?_, ?_, ?_⟩
  · intro hk hm
    simp [applyEv, hk, Finset.insert_eq_self.mpr hm]
  · intro hk hm
    simp [applyEv, hk, Finset.erase_eq_self.mpr hm]
  · unfold soundingNotesPer16th
    simp only [List.length_map, List.length_range]

/-- Witness for C7 at concrete sets, events, and a one-track stream. -/
theorem c7_sampler_edge_cases_witness :
    applyEv {60} ⟨.on, 0, 60⟩ = {60} ∧
    applyEv {60, 64} ⟨.off, 0, 61⟩ = {60, 64} ∧
    (soundingNotesPer16th [[⟨.noteOn, 0, 60, 64, 0⟩, ⟨.noteOff, 8, 60, 0, 0⟩]] 16).1.length =
      (pyRound ((lastTick (sortEvents (allEvents
        [[⟨.noteOn, 0, 60, 64, 0⟩, ⟨.noteOff, 8, 60, 0, 0⟩]])) : ℚ) / (16 / 4))).toNat :=
  ⟨(c7_sampler_edge_cases {60} ⟨.on, 0, 60⟩ [] 0).1 rfl (by decide),
   (c7_sampler_edge_cases {60, 64} ⟨.off, 0, 61⟩ [] 0).2.1 rfl (by decide),
   (c7_sampler_edge_cases ∅ ⟨.on, 0, 0⟩
     [[⟨.noteOn, 0, 60, 64, 0⟩, ⟨.noteOff, 8, 60, 0, 0⟩]] 16).2.2⟩

/-- C8: on the MIDI path, a file in which any sampled subdivision has fewer
than 3 sounding pitches is rejected by the polyphony gate (`False` is
returned before the output file is even opened, so no partial report exists);
consequently every file that completes has at least 3 notes in every sampled
subdivision. -/
theorem c8_polyphony_gate (minorKey : Bool) (soundingNotes : List (List ℕ))
    (name func : List ℕ → String) :
    (minorKey = false → (∃ ns ∈ soundingNotes, ns.length < 3) →
      saveHarmonicAnalysis minorKey soundingNotes name func = .rejectedPolyphony) ∧
    (∀ lines,
      saveHarmonicAnalysis minorKey soundingNotes name func = .completed lines →
      ∀ ns ∈ soundingNotes, 3 ≤ ns.length) := by
  constructor
  · intro hmk hex
    have hany : soundingNotes.any (fun ns => ns.length < 3) = true := by
      simp only [List.any_eq_true, decide_eq_true_eq]
      exact hex
    simp [saveHarmonicAnalysis, hmk, hany]
  · intro lines h ns hns
    by_contra hlt
    push_neg at hlt
    have hany : soundingNotes.any (fun nl => nl.length < 3) = true := by
      simp only [List.any_eq_true, decide_eq_true_eq]
      exact ⟨ns, hns, hlt⟩
    cases minorKey <;> simp [saveHarmonicAnalysis, hany] at h

/-- Witness for C8: a concrete file with a 2-note subdivision is rejected,
and a completed concrete file has only ≥3-note subdivisions. -/
theorem c8_polyphony_gate_witness :
    saveHarmonicAnalysis false [[60, 64, 67], [60, 64]] (fun _ => "C") (fun _ => "I") =
      SaveResult.rejectedPolyphony ∧
    3 ≤ [60, 64, 67].length :=
  ⟨(c8_polyphony_gate false [[60, 64, 67], [60, 64]] (fun _ => "C") (fun _ => "I")).1
      rfl ⟨[60, 64], by simp, by simp⟩,
   (c8_polyphony_gate false [[60, 64, 67]] (fun _ => "C") (fun _ => "I")).2
      [(0, "C", "I")] (by decide) [60, 64, 67] (by simp)⟩

/-- The write loop never aborts when every subdivision has notes and the
external namer never produces the literal "Rest". -/
theorem writeLoop_isSome (name func : List ℕ → String) (l : List (List ℕ))
    (acc : List (ℕ × String × String)) (tick : ℕ)
    (h : ∀ ns ∈ l, ns ≠ [] ∧ name ns ≠ "Rest") :
    (writeLoop name func l acc tick).isSome = true := by
  induction l generalizing acc tick with
  | nil => simp [writeLoop]
  | cons ns rest ih =>
    obtain ⟨hne, hrest⟩ := h ns (by simp)
    simp only [writeLoop, if_pos hne, if_neg hrest]
    exact ih _ _ (fun x hx => h x (by simp [hx]))

/-- C9: under the polyphony gate's precondition (every sampled subdivision has
at least 3 sounding pitches) — and for any external chord-namer that never
returns the literal "Rest" on a nonempty note list, as music21's
`pitchedCommonName` always names actual pitch content — the "Rest" branch
that deletes the already-written report mid-write is unreachable: the
analysis never ends in `abortedRest`. -/
theorem c9_rest_branch_unreachable (minorKey : Bool)
    (soundingNotes : List (List ℕ)) (name func : List ℕ → String)
    (hgate : ∀ ns ∈ soundingNotes, 3 ≤ ns.length)
    (hname : ∀ ns, ns ≠ [] → name ns ≠ "Rest") :
    saveHarmonicAnalysis minorKey soundingNotes name func ≠ .abortedRest := by
  intro h
  cases minorKey with
  | true => simp [saveHarmonicAnalysis] at h
  | false =>
    by_cases hany : soundingNotes.any (fun ns => ns.length < 3) = true
    · simp [saveHarmonicAnalysis, hany] at h
    · have hsome := writeLoop_isSome name func soundingNotes [] 0 (fun ns hns => by
        have h3 := hgate ns hns
        have hne : ns ≠ [] := by
          intro he
          rw [he] at h3
          simp at h3
        exact ⟨hne, hname ns hne⟩)
      obtain ⟨v, hv⟩ := Option.isSome_iff_exists.mp hsome
      simp [saveHarmonicAnalysis, hany, hv] at h

/-- Witness for C9 at a concrete gated file and namer. -/
theorem c9_rest_branch_unreachable_witness :
    saveHarmonicAnalysis false [[60, 64, 67]] (fun _ => "C") (fun _ => "I") ≠
      SaveResult.abortedRest :=
  c9_rest_branch_unreachable false [[60, 64, 67]] (fun _ => "C") (fun _ => "I")
    (by decide) (fun _ _ => (by decide : "C" ≠ "Rest"))

/-- C2: evaluation at the failing input
`[note_on ch0 n60 v64 Δ0, note_on ch0 n61 v64 Δ10, note_off ch0 n61 Δ5]` with
`cut_tick = 10`.  The boundary note-on at absolute tick 10 is dropped
together with its delta time 10, and the synthesized Off's residual delta is
computed from input absolute times (`10 - (15 - 5) = 0`), so the output
track's total elapsed delta time is 0 — not `cut_tick = 10` as the claim
requires — even though (channel 0, pitch 60) was still active when the first
event strictly after the cut was reached. -/
theorem c2_residual_delta_bug :
    cutTrack 10 [⟨.noteOn, 0, 60, 64, 0⟩, ⟨.noteOn, 10, 61, 64, 0⟩,
        ⟨.noteOff, 5, 61, 0, 0⟩] =
      [⟨.noteOn, 0, 60, 64, 0⟩, ⟨.noteOff, 0, 60, 0, 0⟩, endOfTrackMsg] ∧
    trackElapsed (cutTrack 10 [⟨.noteOn, 0, 60, 64, 0⟩, ⟨.noteOn, 10, 61, 64, 0⟩,
        ⟨.noteOff, 5, 61, 0, 0⟩]) = 0 ∧
    trackElapsed (cutTrack 10 [⟨.noteOn, 0, 60, 64, 0⟩, ⟨.noteOn, 10, 61, 64, 0⟩,
        ⟨.noteOff, 5, 61, 0, 0⟩]) ≠ 10 := by
  refine ⟨by decide, by decide, by decide⟩

/-- C4: a message landing exactly on the cut tick is dropped when it is an On
(note_on with positive velocity) and kept otherwise, an Off additionally
removing its (channel, pitch) from the active tracker; and on the concrete
On-at-0/Off-at-20 stream, cutting at 10 yields a synthesized Off at tick 10
with no On after it, while cutting at 20 keeps the natural Off and drops
nothing. -/
theorem c4_cut_boundary (cut t : ℕ) (active : List ((ℕ × ℕ) × ℕ))
    (m : MidoMsg) (rest : List MidoMsg) (hb : t + m.time = cut) :
    (m.typ = .noteOn ∧ 0 < m.velocity →
      cutTrackLoop cut t active (m :: rest) =
        cutTrackLoop cut (t + m.time) active rest) ∧
    (¬(m.typ = .noteOn ∧ 0 < m.velocity) →
      cutTrackLoop cut t active (m :: rest) =
        m :: cutTrackLoop cut (t + m.time) (boundaryActive active m) rest) ∧
    ((m.typ = .noteOn ∧ m.velocity = 0) ∨ m.typ = .noteOff →
      ∀ v, ((m.channel, m.note), v) ∉ boundaryActive active m) ∧
    cutTrack 10 [⟨.noteOn, 0, 60, 64, 0⟩, ⟨.noteOff, 20, 60, 0, 0⟩] =
      [⟨.noteOn, 0, 60, 64, 0⟩, ⟨.noteOff, 10, 60, 0, 0⟩, endOfTrackMsg] ∧
    cutTrack 20 [⟨.noteOn, 0, 60, 64, 0⟩, ⟨.noteOff, 20, 60, 0, 0⟩] =
      [⟨.noteOn, 0, 60, 64, 0⟩, ⟨.noteOff, 20, 60, 0, 0⟩, endOfTrackMsg] := by
  refine ⟨?_, ?_, ?_, by decide, by decide⟩
  · intro hOn
    simp [cutTrackLoop, hb, hOn]
  · intro hnot
    simp [cutTrackLoop, hb, hnot]
  · intro hoff v
    simp [boundaryActive, hoff, dictDel]

/-- Witness for C4 at concrete boundary messages and the concrete stream. -/
theorem c4_cut_boundary_witness :
    cutTrackLoop 10 0 [] [⟨.noteOn, 10, 61, 64, 0⟩] =
      cutTrackLoop 10 (0 + 10) [] [] ∧
    cutTrackLoop 10 0 [((0, 60), 64)] [⟨.noteOff, 10, 60, 0, 0⟩] =
      ⟨.noteOff, 10, 60, 0, 0⟩ ::
        cutTrackLoop 10 (0 + 10)
          (boundaryActive [((0, 60), 64)] ⟨.noteOff, 10, 60, 0, 0⟩) [] ∧
    ((0, 60), 64) ∉ boundaryActive [((0, 60), 64)] ⟨.noteOff, 10, 60, 0, 0⟩ ∧
    cutTrack 10 [⟨.noteOn, 0, 60, 64, 0⟩, ⟨.noteOff, 20, 60, 0, 0⟩] =
      [⟨.noteOn, 0, 60, 64, 0⟩, ⟨.noteOff, 10, 60, 0, 0⟩, endOfTrackMsg] :=
  ⟨(c4_cut_boundary 10 0 [] ⟨.noteOn, 10, 61, 64, 0⟩ [] (by decide)).1 (by decide),
   (c4_cut_boundary 10 0 [((0, 60), 64)] ⟨.noteOff, 10, 60, 0, 0⟩ []
      (by decide)).2.1 (by decide),
   (c4_cut_boundary 10 0 [((0, 60), 64)] ⟨.noteOff, 10, 60, 0, 0⟩ []
      (by decide)).2.2.1 (by decide) 64,
   (c4_cut_boundary 10 0 [] ⟨.noteOn, 10, 0, 0, 0⟩ [] (by decide)).2.2.2.1⟩

theorem extractChords_single_length :
    (extractChords [⟨60, 0, 100⟩] 125).length = 1 := by
  unfold extractChords
  rw [if_neg (by simp)]
  simp only [List.length_map, List.length_range, List.map_cons, List.map_nil,
    List.foldr_cons, List.foldr_nil]
  rw [show max (100 : ℚ) 0 = 100 by norm_num, pyInt, if_neg (by norm_num),
    show ⌊(100 : ℚ) / 125⌋ = 0 by norm_num]
  rfl

theorem extractChords_padded_length :
    (extractChords [⟨60, 0, 100⟩, ⟨10, 0, 1000⟩] 125).length = 9 := by
  unfold extractChords
  rw [if_neg (by simp)]
  simp only [List.length_map, List.length_range, List.map_cons, List.map_nil,
    List.foldr_cons, List.foldr_nil]
  rw [show max (100 : ℚ) (max 1000 0) = 1000 by norm_num, pyInt,
    if_neg (by norm_num), show ⌊(1000 : ℚ) / 125⌋ = 8 by norm_num]
  rfl

/-- C10 counterexample: a pitch-10 note (outside 21..108) never enters any
sampled note set, yet `max_ms` is computed over all note messages with no
pitch filter, so adding it stretches the sampling horizon and changes
`_extract_chords`' output from 1 subdivision to 9. -/
theorem c10_counterexample :
    (10 : ℕ) < 21 ∧
    (extractChords [⟨60, 0, 100⟩] 125).length = 1 ∧
    (extractChords [⟨60, 0, 100⟩, ⟨10, 0, 1000⟩] 125).length = 9 ∧
    extractChords [⟨60, 0, 100⟩, ⟨10, 0, 1000⟩] 125 ≠
      extractChords [⟨60, 0, 100⟩] 125 := by
  refine ⟨by decide, extractChords_single_length, extractChords_padded_length, ?_⟩
  intro h
  have h2 := congrArg List.length h
  rw [extractChords_single_length, extractChords_padded_length] at h2
  exact absurd h2 (by decide)

/-- C10 (amended): a note whose pitch lies outside 21..108 never contributes
to any sampled note set, and at every subdivision index sampled in both runs
the chord label is unchanged; it can however extend the sampling horizon
(`max_ms` ignores the pitch filter), so the output list itself may gain extra
trailing entries. -/
theorem c10_range_filter_amended (msgs : List NoteMsg) (m : NoteMsg)
    (step_ms : ℚ) (hout : m.pitch < 21 ∨ 108 < m.pitch) :
    (∀ t : ℚ, sampleNotes (msgs ++ [m]) t = sampleNotes msgs t) ∧
    (∀ i, i < (extractChords (msgs ++ [m]) step_ms).length →
      i < (extractChords msgs step_ms).length →
      (extractChords (msgs ++ [m]) step_ms).get? i =
        (extractChords msgs step_ms).get? i) := by
  have hs : ∀ t : ℚ, sampleNotes (msgs ++ [m]) t = sampleNotes msgs t := by
    intro t
    unfold sampleNotes
    rw [List.filter_append]
    have hd : (decide (m.startMs ≤ t ∧ t < m.endMs ∧ 21 ≤ m.pitch ∧ m.pitch ≤ 108))
        = false := by
      rw [decide_eq_false_iff_not]
      intro hc
      obtain ⟨h21, h108⟩ := hc.2.2
      rcases hout with h1 | h1 <;> omega
    simp [List.filter, hd]
  refine ⟨hs, ?_⟩
  intro i h1 h2
  cases msgs with
  | nil => simp [extractChords] at h2
  | cons a l =>
    unfold extractChords at h1 h2 ⊢
    rw [if_neg (by simp)] at h1
    rw [if_neg (by simp)] at h2
    rw [if_neg (by simp), if_neg (by simp)]
    simp only [List.length_map, List.length_range] at h1 h2
    rw [List.get?_map, List.get?_map, List.get?_range h1, List.get?_range h2]
    simp only [Option.map_some']
    rw [hs]

/-- Witness for C10 (amended) at the concrete out-of-range note. -/
theorem c10_range_filter_amended_witness :
    sampleNotes [⟨60, 0, 100⟩, ⟨10, 0, 1000⟩] 0 = sampleNotes [⟨60, 0, 100⟩] 0 ∧
    (extractChords [⟨60, 0, 100⟩, ⟨10, 0, 1000⟩] 125).get? 0 =
      (extractChords [⟨60, 0, 100⟩] 125).get? 0 :=
  ⟨(c10_range_filter_amended [⟨60, 0, 100⟩] ⟨10, 0, 1000⟩ 125 (by decide)).1 0,
   (c10_range_filter_amended [⟨60, 0, 100⟩] ⟨10, 0, 1000⟩ 125 (by decide)).2 0
      (by simp only [List.cons_append, List.nil_append]
          rw [extractChords_padded_length]; decide)
      (by rw [extractChords_single_length]; decide)⟩

end Aria
